import Mathlib

/-!
Verification of the extension/hook lifecycle manager and the tool-call
approval gate of the `chat-tools` framework.

The TypeScript classes `HookManager`, `ExtensionManager`, `ApprovalManager`,
`ApprovalExtension` and the auto-approval queries of `DrizzleStorage` are
embedded shallowly: JavaScript `Map`s become association lists with
insert-or-replace semantics, the mutable manager state becomes an explicit
record threaded through the operations, thrown exceptions become
`Except String` errors carrying the thrown message, and the (potentially
non-terminating) mutual recursion of `activate` / `activateDependencies`
is given a fuel parameter whose exhaustion is reported by a distinguished
error value.  Extension-supplied callbacks (hook handlers, `activate` /
`deactivate` bodies) are modelled by the outcome they produce when invoked:
`Except.ok ()` for normal return, `Except.error m` for throwing an error
with message `m`.
-/

namespace ChatTools

/-! ### Generic helpers: association lists with JavaScript `Map` semantics -/

/-- `Map.get`: first binding of the key, if any. -/
def mapGet {α : Type} : List (String × α) → String → Option α
  | [], _ => none
  | (k, v) :: rest, key => if k = key then some v else mapGet rest key

/-- `Map.set`: replace the binding in place if the key is present
(JavaScript keeps the original insertion position), else append. -/
def mapSet {α : Type} : List (String × α) → String → α → List (String × α)
  | [], key, v => [(key, v)]
  | (k, w) :: rest, key, v =>
      if k = key then (k, v) :: rest else (k, w) :: mapSet rest key v

/-- `Map.delete`: remove the binding of the key, if any. -/
def mapDel {α : Type} : List (String × α) → String → List (String × α)
  | [], _ => []
  | (k, v) :: rest, key => if k = key then rest else (k, v) :: mapDel rest key

/-- Does a list of strings contain a given element (JavaScript `Set.has`). -/
def setHas (s : List String) (x : String) : Bool := s.contains x

/-- Substring test used to formalise that an error message "references"
an extension or a failure: `listStartsWith pre l` holds when `pre` is an
initial segment of `l`. -/
def listStartsWith : List Char → List Char → Bool
  | [], _ => true
  | _ :: _, [] => false
  | a :: as, b :: bs => a == b && listStartsWith as bs

/-- `listHasSub needle hay`: `needle` occurs contiguously inside `hay`. -/
def listHasSub (needle : List Char) : List Char → Bool
  | [] => needle.isEmpty
  | b :: bs => listStartsWith needle (b :: bs) || listHasSub needle bs

/-- `strHasSub hay needle`: `needle` is a contiguous substring of `hay`. -/
def strHasSub (hay needle : String) : Bool := listHasSub needle.data hay.data

/-! ### Hook dispatcher (`HookManager`, packages/extensions/src/hook-manager.ts)

`hooks` is a `Map` from hook name to a `Map` from owning extension id to the
handler.  A handler is modelled by the outcome it produces when invoked. -/

/-- The outcome of invoking one extension-supplied callback:
`.ok ()` for normal return, `.error m` for a throw with message `m`. -/
abbrev CallOutcome := Except String Unit

/-- Hook registry: hook name ↦ (extension id ↦ handler outcome). -/
abbrev Hooks := List (String × List (String × CallOutcome))

/-- `HookManager.register`: create the inner map if absent, then
insert-or-replace the handler under the owning extension id. -/
def hookRegister (hooks : Hooks) (hookName : String) (handler : CallOutcome)
    (extensionId : String) : Hooks :=
  match mapGet hooks hookName with
  | none => mapSet hooks hookName [(extensionId, handler)]
  | some inner => mapSet hooks hookName (mapSet inner extensionId handler)

/-- `HookManager.unregister`: drop the extension's handler for one hook;
an inner map left empty is removed altogether. -/
def hookUnregister (hooks : Hooks) (hookName : String) (extensionId : String) : Hooks :=
  match mapGet hooks hookName with
  | none => hooks
  | some inner =>
      let inner' := mapDel inner extensionId
      if inner'.isEmpty then mapDel hooks hookName
      else mapSet hooks hookName inner'

/-- `HookManager.unregisterAll`: drop the extension's handler from every hook. -/
def hookUnregisterAll (hooks : Hooks) (extensionId : String) : Hooks :=
  hooks.foldl (fun acc entry =>
    if entry.2.any (fun h => h.1 = extensionId)
    then hookUnregister acc entry.1 extensionId else acc) hooks

/-- `HookManager.executeHandler`: invoke one handler; a throw is caught,
logged and re-thrown wrapped with the hook name and the owning extension id. -/
def executeHandler (hookName extensionId : String) (outcome : CallOutcome) :
    Except String Unit :=
  match outcome with
  | .ok () => .ok ()
  | .error m =>
      .error ("Hook " ++ hookName ++ " failed in extension " ++ extensionId ++ ": " ++ m)

/-- `Promise.all` over already-created promises that settle in creation
order: resolves when every entry resolved, otherwise rejects with the first
rejection. -/
def promiseAllFirstError : List (Except String Unit) → Except String Unit
  | [] => .ok ()
  | .ok () :: rest => promiseAllFirstError rest
  | .error m :: _ => .error m

/-- `HookManager.execute`: with no handlers, resolve at once.  Otherwise a
promise is created for every handler — invoking each handler — and then
`Promise.all` is awaited.  The first component lists the extension ids whose
handlers were invoked, the second is the settled result. -/
def hookExecute (hooks : Hooks) (hookName : String) :
    List String × Except String Unit :=
  match mapGet hooks hookName with
  | none => ([], .ok ())
  | some handlers =>
      (handlers.map Prod.fst,
       promiseAllFirstError
         (handlers.map (fun h => executeHandler hookName h.1 h.2)))

/-- First failing handler (extension id, raw message) in registration order. -/
def firstFailure : List (String × CallOutcome) → Option (String × String)
  | [] => none
  | (_, .ok ()) :: rest => firstFailure rest
  | (i, .error m) :: _ => some (i, m)

deriving instance DecidableEq for Except

/-! ### Extensions and the external `semver` library -/

/-- An extension as the `ExtensionManager` consumes it.  Its dependency
declaration carries an optional host-framework range (`dependencies.chatTools`)
and a map of extension id ↦ version range (`dependencies.extensions`, kept in
object-literal insertion order).  The `activate` / `deactivate` callbacks and
each hook handler are modelled by the outcome their invocation produces;
`none` means the optional callback (or the whole `hooks` object) is absent. -/
structure Extension where
  name : String
  version : String
  chatToolsRange : Option String := none
  extDeps : List (String × String) := []
  hooks : Option (List (String × CallOutcome)) := none
  activateOutcome : Option CallOutcome := none
  deactivateOutcome : Option CallOutcome := none
deriving DecidableEq

/-- Is a character list a non-empty run of decimal digits. -/
def isNumeral (s : List Char) : Bool := !s.isEmpty && s.all Char.isDigit

/-- Split a character list on `'.'` (the groups between the dots). -/
def splitOnDot : List Char → List (List Char)
  | [] => [[]]
  | c :: rest =>
      if c = '.' then [] :: splitOnDot rest
      else
        match splitOnDot rest with
        | [] => [[c]]
        | g :: gs => (c :: g) :: gs

/-- Modelled from the external `semver` npm library (a dependency, not code
of this repository), restricted to the plain `MAJOR.MINOR.PATCH` numeric
versions used throughout this development: such a string is a valid semantic
version. -/
def semverValid (v : String) : Bool :=
  match splitOnDot v.data with
  | [a, b, c] => isNumeral a && isNumeral b && isNumeral c
  | _ => false

/-- Modelled from the external `semver` npm library, restricted to ranges
that are themselves a plain version (an exact range, satisfied by equality),
the only form of range this development uses. -/
def semverSatisfies (version range : String) : Bool := version == range

/-- Mutable state of one `ExtensionManager` instance.  `log` is proof
instrumentation only: the ids appended in the same step that adds them to
`activeExtensions`, recording activation order. -/
structure MState where
  extensions : List (String × Extension) := []
  activeExtensions : List String := []
  contexts : List String := []
  hooks : Hooks := []
  frameworkVersion : String := "1.0.0"
  log : List String := []
deriving DecidableEq

/-- `ExtensionManager.getExtensionId`:
`extension.name.toLowerCase().replace(/[^a-z0-9]/g, '-')`.  `Char.toLower`
models `toLowerCase` on the ASCII names used here. -/
def getExtensionId (ext : Extension) : String :=
  let lowered := ext.name.data.map Char.toLower
  ⟨lowered.map (fun c =>
     if ('a' ≤ c ∧ c ≤ 'z') ∨ ('0' ≤ c ∧ c ≤ '9') then c else '-')⟩

/-- `ExtensionManager.validateExtension`: name and version must be non-empty
strings and the version a valid semantic version. -/
def validateExtension (ext : Extension) : Except String Unit :=
  if ext.name = "" then .error "Extension must have a valid name"
  else if ext.version = "" then .error "Extension must have a valid version"
  else if !semverValid ext.version then
    .error ("Extension version is not a valid semver: " ++ ext.version)
  else .ok ()

/-- The per-dependency loop of `ExtensionManager.checkDependencies`: every
declared extension dependency must already be registered with a version
satisfying its range. -/
def checkExtDeps (st : MState) : List (String × String) → Except String Unit
  | [] => .ok ()
  | (depId, depRange) :: rest =>
      match mapGet st.extensions depId with
      | none => .error ("Extension dependency not found: " ++ depId)
      | some dep =>
          if !semverSatisfies dep.version depRange then
            .error ("Extension dependency " ++ depId ++ " version " ++
                    dep.version ++ " does not satisfy requirement " ++ depRange)
          else checkExtDeps st rest

/-- `ExtensionManager.checkDependencies`: the framework version must satisfy
the declared `chatTools` range, then every extension dependency is checked. -/
def checkDependencies (st : MState) (ext : Extension) : Except String Unit :=
  match ext.chatToolsRange with
  | some range =>
      if !semverSatisfies st.frameworkVersion range then
        .error ("Extension requires chat-tools version " ++ range ++
                ", but current version is " ++ st.frameworkVersion)
      else checkExtDeps st ext.extDeps
  | none => checkExtDeps st ext.extDeps

/-- `ExtensionManager.registerExtensionHooks`: register every declared hook
handler with the dispatcher under the owning extension id. -/
def registerExtensionHooks (hooks : Hooks) (extensionId : String)
    (extHooks : List (String × CallOutcome)) : Hooks :=
  extHooks.foldl (fun acc h => hookRegister acc h.1 h.2 extensionId) hooks

/-- `ExtensionManager.register`: validate, check dependencies, store the
extension under its normalized id, create its context, register its hooks.
A JavaScript `Map.set` on an existing key replaces the stored value. -/
def register (st : MState) (ext : Extension) : Except String MState := do
  let extensionId := getExtensionId ext
  let () ← validateExtension ext
  let () ← checkDependencies st ext
  let st := { st with extensions := mapSet st.extensions extensionId ext }
  let st := { st with
    contexts := if st.contexts.contains extensionId then st.contexts
                else st.contexts ++ [extensionId] }
  let st :=
    match ext.hooks with
    | some hs => { st with hooks := registerExtensionHooks st.hooks extensionId hs }
    | none => st
  pure st

/-- Is the extension currently active (`ExtensionManager.isActive`). -/
def isActive (st : MState) (extensionId : String) : Bool :=
  st.activeExtensions.contains extensionId

/-- The error outcome of an `activate` run: a thrown message, or exhaustion
of the recursion budget, which models the non-termination of the embedded
unbounded mutual recursion. -/
inductive ActError where
  | err : String → ActError
  | outOfFuel : ActError
deriving DecidableEq

/-- The `try` block of `ExtensionManager.activate`, entered after the
dependencies activated: run the `framework:beforeInit` hook, the
extension's own `activate` callback, mark the extension active, then the
`framework:afterInit` hook; a throw anywhere is logged and re-thrown,
leaving the state as the failing step left it — in particular a throw in
the post-activation hook happens after the extension was marked active. -/
def activateTail (ext : Extension) (extensionId : String) (st1 : MState) :
    Except ActError Unit × MState :=
  match (hookExecute st1.hooks "framework:beforeInit").2 with
  | .error m => (.error (.err m), st1)
  | .ok () =>
      match ext.activateOutcome with
      | some (.error m) => (.error (.err m), st1)
      | _ =>
          let st2 := { st1 with
            activeExtensions := st1.activeExtensions ++ [extensionId],
            log := st1.log ++ [extensionId] }
          match (hookExecute st2.hooks "framework:afterInit").2 with
          | .error m => (.error (.err m), st2)
          | .ok () => (.ok (), st2)

/-- The loop of `ExtensionManager.activateDependencies` over the declared
dependency ids in order, `act` being the recursive `activate` call:
recursively activate each dependency unless already active. -/
def activateDepsGo (act : MState → String → Except ActError Unit × MState) :
    MState → List String → Except ActError Unit × MState
  | st, [] => (.ok (), st)
  | st, depId :: rest =>
      if isActive st depId then activateDepsGo act st rest
      else
        match act st depId with
        | (.error e, st') => (.error e, st')
        | (.ok (), st') => activateDepsGo act st' rest

/-- `ExtensionManager.activate` (fuelled).  Looks the extension up, returns
at once when already active, recursively activates the declared
dependencies first (the recursion consuming one unit of fuel), then runs
the `try` block `activateTail`. -/
def activateFuel : Nat → MState → String → Except ActError Unit × MState
  | 0 => fun st _ => (.error .outOfFuel, st)
  | fuel + 1 => fun st extensionId =>
      match mapGet st.extensions extensionId with
      | none => (.error (.err ("Extension not found: " ++ extensionId)), st)
      | some ext =>
          if isActive st extensionId then (.ok (), st)
          else
            match activateDepsGo (activateFuel fuel) st (ext.extDeps.map Prod.fst) with
            | (.error e, st1) => (.error e, st1)
            | (.ok (), st1) => activateTail ext extensionId st1

/-- `ExtensionManager.activateDependencies` (fuelled). -/
def activateDependenciesFuel (fuel : Nat) (st : MState) (ext : Extension) :
    Except ActError Unit × MState :=
  activateDepsGo (activateFuel fuel) st (ext.extDeps.map Prod.fst)

/-- How an `activate` run may evolve the manager state: the extension
registry and hook tables are untouched, the activation log only grows at
the end, every newly active extension is one of the ids appended to the
log during the run, and nothing is deactivated. -/
def ActPreserves (st st' : MState) : Prop :=
  st'.extensions = st.extensions ∧
  st'.hooks = st.hooks ∧
  (∃ L, st'.log = st.log ++ L ∧
    ∀ x ∈ st'.activeExtensions, x ∈ st.activeExtensions ∨ x ∈ L) ∧
  (∀ x ∈ st.activeExtensions, x ∈ st'.activeExtensions)

/-- `ExtensionManager.deactivate`: runs the `framework:beforeShutdown` hook,
the extension's `deactivate` callback, removes the extension from the active
set, then the `framework:afterShutdown` hook; a throw is logged and re-thrown. -/
def deactivate (st : MState) (extensionId : String) : Except String Unit × MState :=
  match mapGet st.extensions extensionId with
  | none => (.error ("Extension not found: " ++ extensionId), st)
  | some ext =>
    if !isActive st extensionId then (.ok (), st)
    else
      match (hookExecute st.hooks "framework:beforeShutdown").2 with
      | .error m => (.error m, st)
      | .ok () =>
        match ext.deactivateOutcome with
        | some (.error m) => (.error m, st)
        | _ =>
          let st1 := { st with
            activeExtensions := st.activeExtensions.erase extensionId }
          match (hookExecute st1.hooks "framework:afterShutdown").2 with
          | .error m => (.error m, st1)
          | .ok () => (.ok (), st1)

/-- `ExtensionManager.unregister`: deactivate when active (a throw there
propagates and aborts the removal), then drop the extension's hook handlers,
its stored record and its context. -/
def unregister (st : MState) (extensionId : String) : Except String Unit × MState :=
  match (if isActive st extensionId then deactivate st extensionId else (.ok (), st)) with
  | (.error e, st') => (.error e, st')
  | (.ok (), st') =>
      let st' := { st' with hooks := hookUnregisterAll st'.hooks extensionId }
      let st' := { st' with
        extensions := mapDel st'.extensions extensionId,
        contexts := st'.contexts.erase extensionId }
      (.ok (), st')

/-! ### Decision store (`DrizzleStorage` auto-approval table)

A row of the `autoApprovedTools` table: generated id, tool name, and the
session the decision is scoped to (`none` = a global decision, stored as SQL
NULL).  The store is an external collaborator that can be unreachable; the
two flags make a read or a write throw, modelling that failure mode.  The
timestamp/random id generator is modelled by a counter (ids are opaque). -/
structure ApprovalStore where
  rows : List (String × String × Option String) := []
  nextId : Nat := 0
  readFails : Bool := false
  writeFails : Bool := false
deriving DecidableEq

/-- `DrizzleStorage.addAutoApprovedTool`: insert a row, keyed
`session_tool_*` when session-scoped and `global_tool_*` when global,
returning the generated id. -/
def addAutoApprovedTool (s : ApprovalStore) (toolName : String)
    (sessionId : Option String) : Except String (String × ApprovalStore) :=
  if s.writeFails then .error "storage write failed"
  else
    let id := (match sessionId with
               | some _ => "session_tool_"
               | none => "global_tool_") ++ toString s.nextId
    .ok (id, { s with rows := s.rows ++ [(id, toolName, sessionId)],
                      nextId := s.nextId + 1 })

/-- `DrizzleStorage.isToolAutoApproved`: first query for a global row
(`sessionId IS NULL`) for the tool — if one exists the answer is true
regardless of the supplied session; only otherwise, and only when a
sessionId was supplied, query for a session row. -/
def isToolAutoApproved (s : ApprovalStore) (toolName : String)
    (sessionId : Option String) : Except String Bool :=
  if s.readFails then .error "storage read failed"
  else if s.rows.any (fun r => r.2.1 == toolName && r.2.2.isNone) then .ok true
  else
    match sessionId with
    | some sid => .ok (s.rows.any (fun r => r.2.1 == toolName && r.2.2 == some sid))
    | none => .ok false

/-- Does the store hold a global (`sessionId IS NULL`) row for the tool —
the first query of `isToolAutoApproved`. -/
def globalHit (s : ApprovalStore) (toolName : String) : Bool :=
  s.rows.any fun r => r.2.1 == toolName && r.2.2.isNone

/-- Does the store hold a row for the tool scoped to the given session —
the second query of `isToolAutoApproved`; vacuously false with no session. -/
def sessionHit (s : ApprovalStore) (toolName : String) : Option String → Bool
  | some sid => s.rows.any fun r => r.2.1 == toolName && r.2.2 == some sid
  | none => false

/-! ### Approval gate (`ApprovalManager`, examples/chat/src/approval-manager.ts) -/

/-- The scope a strategy response may carry. -/
inductive Scope where
  | once
  | session
  | global
deriving DecidableEq

/-- An approval request as built by `shouldApprove`.  Tool parameters and
the optional context object are opaque payloads, modelled as strings. -/
structure ApprovalRequest where
  toolName : String
  params : String
  context : Option String
  sessionId : Option String
deriving DecidableEq

/-- A strategy response: the decision and an optional persistence scope. -/
structure ApprovalResponse where
  approved : Bool
  scope : Option Scope := none
deriving DecidableEq

/-- The configured interactive approval strategy, modelled by the response
it produces for a given request. -/
abbrev Strategy := ApprovalRequest → ApprovalResponse

/-- `ApprovalManager.saveApprovalScope`: persist a session decision when a
sessionId is present, a global decision for a global scope, nothing
otherwise; a storage write failure is caught and logged, leaving the store
unchanged. -/
def saveApprovalScope (store : ApprovalStore) (toolName : String)
    (scope : Scope) (sessionId : Option String) : ApprovalStore :=
  match scope, sessionId with
  | .session, some sid =>
      (match addAutoApprovedTool store toolName (some sid) with
       | .ok (_, s') => s'
       | .error _ => store)
  | .global, _ =>
      (match addAutoApprovedTool store toolName none with
       | .ok (_, s') => s'
       | .error _ => store)
  | _, _ => store

/-- `ApprovalManager.shouldApprove`: consult the decision store (that read
is NOT guarded by a try/catch — a store read failure propagates to the
caller); on a hit approve at once; otherwise invoke the strategy and, when
it approves with a scope other than `once`, persist the scope.  The result
carries the decision, the store afterwards, and whether the strategy was
invoked. -/
def shouldApprove (store : ApprovalStore) (strategy : Strategy)
    (toolName params : String) (sessionId context : Option String) :
    Except String (Bool × ApprovalStore × Bool) :=
  match isToolAutoApproved store toolName sessionId with
  | .error e => .error e
  | .ok true => .ok (true, store, false)
  | .ok false =>
      let response := strategy ⟨toolName, params, context, sessionId⟩
      let store' :=
        match response.scope with
        | some sc =>
            if response.approved ∧ sc ≠ Scope.once then
              saveApprovalScope store toolName sc sessionId
            else store
        | none => store
      .ok (response.approved, store', true)

/-! ### Tool wrapping (`ApprovalExtension.wrapTools`) -/

/-- The second argument the underlying `execute` receives: either the
options value the caller supplied, or the substituted default call context
(the object with `toolCallId: 'approval-wrapped'` and empty `messages`)
when the caller supplied none. -/
inductive CallOptions where
  | caller : String → CallOptions
  | approvalDefault
deriving DecidableEq

/-- A tool as `wrapTools` receives it: the underlying `execute` is an
optional function of the parameters and the options it receives. -/
structure Tool where
  execute : Option (String → CallOptions → String) := none

/-- Observable outcome of one call to a wrapped tool's `execute`: whether
the underlying `execute` ran, the exact arguments it received, and the
result or thrown message. -/
structure WrappedCallResult where
  underlyingCalled : Bool
  paramsReceived : Option String
  optionsReceived : Option CallOptions
  outcome : Except String String

/-- The `execute` of a wrapped tool, given the resolved `shouldApprove`
decision for this call: on denial throw `Tool execution denied: <name>`
without touching the tool; on approval call the underlying `execute` with
the caller's parameters and `options || defaultContext`; a tool without an
`execute` function is an error. -/
def wrappedExecute (approved : Bool) (toolName : String) (tool : Tool)
    (parameters : String) (options : Option String) : WrappedCallResult :=
  if !approved then
    ⟨false, none, none, .error ("Tool execution denied: " ++ toolName)⟩
  else
    match tool.execute with
    | some f =>
        let opts := match options with
                    | some o => CallOptions.caller o
                    | none => CallOptions.approvalDefault
        ⟨true, some parameters, some opts, .ok (f parameters opts)⟩
    | none =>
        ⟨false, none, none,
         .error ("Tool " ++ toolName ++ " has no execute function")⟩

/-! ### Concrete scenarios used by counterexamples and witnesses -/

/-- Extension `a` with no dependencies. -/
def extA0 : Extension := { name := "a", version := "1.0.0" }

/-- Extension `b` depending on `a`. -/
def extB1 : Extension := { name := "b", version := "1.0.0", extDeps := [("a", "1.0.0")] }

/-- A re-registered `a` that now depends on `b`, closing a dependency cycle. -/
def extA1 : Extension := { name := "a", version := "1.0.0", extDeps := [("b", "1.0.0")] }

/-- Reach a registered dependency cycle through the public API:
register `a`, register `b` (depends on `a`), unregister `a`, then register
the new `a` that depends on `b`.  Every step's own dependency check passes. -/
def buildCycle : Except String MState := do
  let s1 ← register {} extA0
  let s2 ← register s1 extB1
  match unregister s2 "a" with
  | (.error e, _) => .error e
  | (.ok (), s3) => register s3 extA1

/-- The resulting state: `a` and `b` registered, each depending on the
other, neither active. -/
def cycleSt : MState :=
  { extensions := [("b", extB1), ("a", extA1)], contexts := ["b", "a"] }

/-- An extension whose `framework:afterInit` hook handler throws. -/
def hookFailExt : Extension :=
  { name := "h", version := "1.0.0",
    hooks := some [("framework:afterInit", .error "postboom")] }

/-- A plain extension with nothing but a name and version. -/
def plainExt : Extension := { name := "p", version := "1.0.0" }

/-- State with `hookFailExt` and `plainExt` registered (hook handlers are
registered at registration time, active or not). -/
def postHookSt : MState :=
  { extensions := [("h", hookFailExt), ("p", plainExt)],
    contexts := ["h", "p"],
    hooks := [("framework:afterInit", [("h", Except.error "postboom")])] }

/-- State with `a` and `b` (depending on `a`) registered, neither active. -/
def stAB : MState :=
  { extensions := [("a", extA0), ("b", extB1)], contexts := ["a", "b"] }

/-- First registration under the id `dup`. -/
def extDup1 : Extension :=
  { name := "Dup", version := "1.0.0", activateOutcome := some (.ok ()) }

/-- A different extension resolving to the same id `dup`. -/
def extDup2 : Extension := { name := "Dup", version := "2.0.0" }

/-- A hook with three handlers of which the first and third throw. -/
def threeHandlerHooks : Hooks :=
  [("agent:beforeToolCall",
    [("ext1", Except.error "boom1"), ("ext2", Except.ok ()),
     ("ext3", Except.error "boom3")])]

/-- A strategy denying every request. -/
def denyAllStrategy : Strategy := fun _ => ⟨false, none⟩

/-- A strategy approving every request with session scope. -/
def sessionStrategy : Strategy := fun _ => ⟨true, some Scope.session⟩

/-- A strategy approving every request with global scope. -/
def globalStrategy : Strategy := fun _ => ⟨true, some Scope.global⟩

/-- A strategy approving every request with scope `once`. -/
def onceStrategy : Strategy := fun _ => ⟨true, some Scope.once⟩

/-- A tool whose underlying `execute` tags its parameters. -/
def toolT : Tool := { execute := some (fun p _ => p ++ ":ran") }

/-- An extension with an unnormalized name. -/
def extMyExt : Extension := { name := "My Ext", version := "1.0.0" }

/-- A differently punctuated name normalizing to the same id. -/
def extMyDotExt : Extension := { name := "my.ext", version := "1.0.0" }

/-! ## Helper lemmas -/

theorem mapGet_mapSet_self {α : Type} (m : List (String × α)) (k : String) (v : α) :
    mapGet (mapSet m k v) k = some v := by
  induction m with
  | nil => simp [mapSet, mapGet]
  | cons hd tl ih =>
      by_cases h : hd.1 = k
      · simp [mapSet, mapGet, h]
      · simp [mapSet, mapGet, h, ih]

theorem promiseAll_executeHandler (name : String) :
    ∀ hs : List (String × CallOutcome),
      promiseAllFirstError (hs.map fun h => executeHandler name h.1 h.2) =
        (match firstFailure hs with
         | none => Except.ok ()
         | some (i, m) =>
             Except.error ("Hook " ++ name ++ " failed in extension " ++ i ++ ": " ++ m)) := by
  intro hs
  induction hs with
  | nil => rfl
  | cons hd tl ih =>
      obtain ⟨i, o⟩ := hd
      cases o with
      | ok u =>
          cases u
          simpa [executeHandler, promiseAllFirstError, firstFailure] using ih
      | error m => simp [executeHandler, promiseAllFirstError, firstFailure]

theorem isToolAutoApproved_ok (store : ApprovalStore) (toolName : String)
    (sessionId : Option String) (hr : store.readFails = false) :
    isToolAutoApproved store toolName sessionId =
      .ok (globalHit store toolName || sessionHit store toolName sessionId) := by
  unfold isToolAutoApproved globalHit sessionHit
  rw [hr]
  by_cases h : (store.rows.any fun r => r.2.1 == toolName && r.2.2.isNone) = true
  · simp [h]
  · cases sessionId <;> simp [h]

theorem activateDepsGo_all_active
    (act : MState → String → Except ActError Unit × MState) (st : MState) :
    ∀ ds : List String, (∀ d ∈ ds, isActive st d = true) →
      activateDepsGo act st ds = (.ok (), st) := by
  intro ds h
  induction ds with
  | nil => rfl
  | cons d rest ih =>
      have hd : isActive st d = true := h d (by simp)
      simp only [activateDepsGo, hd, if_true]
      exact ih (fun x hx => h x (List.mem_cons_of_mem d hx))

theorem actPreserves_refl (st : MState) : ActPreserves st st :=
  ⟨rfl, rfl, ⟨[], by simp, fun x hx => Or.inl hx⟩, fun _ hx => hx⟩

theorem actPreserves_trans {st st1 st2 : MState}
    (h1 : ActPreserves st st1) (h2 : ActPreserves st1 st2) :
    ActPreserves st st2 := by
  obtain ⟨he1, hh1, ⟨L1, hl1, hn1⟩, hf1⟩ := h1
  obtain ⟨he2, hh2, ⟨L2, hl2, hn2⟩, hf2⟩ := h2
  refine ⟨he2.trans he1, hh2.trans hh1, ⟨L1 ++ L2, ?_, ?_⟩, fun x hx => hf2 x (hf1 x hx)⟩
  · rw [hl2, hl1, List.append_assoc]
  · intro x hx
    rcases hn2 x hx with hx1 | hx1
    · rcases hn1 x hx1 with hx0 | hx0
      · exact Or.inl hx0
      · exact Or.inr (List.mem_append_left _ hx0)
    · exact Or.inr (List.mem_append_right _ hx1)

theorem markActive_preserves (st1 : MState) (extensionId : String) :
    ActPreserves st1 { st1 with
      activeExtensions := st1.activeExtensions ++ [extensionId],
      log := st1.log ++ [extensionId] } := by
  refine ⟨rfl, rfl, ⟨[extensionId], rfl, ?_⟩, ?_⟩
  · intro x hx
    simpa using List.mem_append.mp hx
  · intro x hx
    exact List.mem_append_left _ hx

theorem activateTail_preserves (ext : Extension) (extensionId : String)
    (st1 : MState) :
    ActPreserves st1 (activateTail ext extensionId st1).2 := by
  unfold activateTail
  cases hpre : (hookExecute st1.hooks "framework:beforeInit").2 with
  | error m => exact actPreserves_refl st1
  | ok u =>
      cases u
      cases hout : ext.activateOutcome with
      | none =>
          cases hpost : (hookExecute ({ st1 with
              activeExtensions := st1.activeExtensions ++ [extensionId],
              log := st1.log ++ [extensionId] } : MState).hooks
              "framework:afterInit").2 with
          | error m => simp only [hpost]; exact markActive_preserves st1 extensionId
          | ok u => cases u; simp only [hpost]; exact markActive_preserves st1 extensionId
      | some o =>
          cases o with
          | error m => exact actPreserves_refl st1
          | ok u =>
              cases u
              cases hpost : (hookExecute ({ st1 with
                  activeExtensions := st1.activeExtensions ++ [extensionId],
                  log := st1.log ++ [extensionId] } : MState).hooks
                  "framework:afterInit").2 with
              | error m => simp only [hpost]; exact markActive_preserves st1 extensionId
              | ok u => cases u; simp only [hpost]; exact markActive_preserves st1 extensionId

theorem activatePreserves (fuel : Nat) :
    (∀ st extensionId, ActPreserves st (activateFuel fuel st extensionId).2)
    ∧ (∀ st ds, ActPreserves st (activateDepsGo (activateFuel fuel) st ds).2) := by
  induction fuel with
  | zero =>
      constructor
      · intro st _; exact actPreserves_refl st
      · intro st ds
        induction ds generalizing st with
        | nil => exact actPreserves_refl st
        | cons d rest ih =>
            by_cases hd : isActive st d = true
            · simp only [activateDepsGo, hd, if_true]; exact ih st
            · simp only [activateDepsGo, if_neg hd]; exact actPreserves_refl st
  | succ n ihn =>
      obtain ⟨_, ihDeps⟩ := ihn
      have hAct : ∀ st extensionId,
          ActPreserves st (activateFuel (n + 1) st extensionId).2 := by
        intro st extensionId
        simp only [activateFuel]
        cases hm : mapGet st.extensions extensionId with
        | none => exact actPreserves_refl st
        | some ext =>
            simp only
            by_cases hi : isActive st extensionId = true
            · rw [if_pos hi]; exact actPreserves_refl st
            · rw [if_neg hi]
              cases hd : activateDepsGo (activateFuel n) st (ext.extDeps.map Prod.fst) with
              | mk r1 st1 =>
                  have hp1 : ActPreserves st st1 := by
                    have h := ihDeps st (ext.extDeps.map Prod.fst)
                    rw [hd] at h
                    exact h
                  cases r1 with
                  | error e => exact hp1
                  | ok u =>
                      cases u
                      exact actPreserves_trans hp1
                        (activateTail_preserves ext extensionId st1)
      refine ⟨hAct, ?_⟩
      intro st ds
      induction ds generalizing st with
      | nil => exact actPreserves_refl st
      | cons d rest ih =>
          simp only [activateDepsGo]
          by_cases hi : isActive st d = true
          · rw [if_pos hi]; exact ih st
          · rw [if_neg hi]
            cases ha : activateFuel (n + 1) st d with
            | mk r st' =>
                have hp : ActPreserves st st' := by
                  have h := hAct st d
                  rw [ha] at h
                  exact h
                cases r with
                | error e => exact hp
                | ok u => cases u; exact actPreserves_trans hp (ih st')

theorem activateTail_ok (ext : Extension) (extensionId : String)
    (st1 st' : MState) (h : activateTail ext extensionId st1 = (.ok (), st')) :
    st' = { st1 with
      activeExtensions := st1.activeExtensions ++ [extensionId],
      log := st1.log ++ [extensionId] } := by
  unfold activateTail at h
  cases hpre : (hookExecute st1.hooks "framework:beforeInit").2 with
  | error m => rw [hpre] at h; simp at h
  | ok u =>
      cases u
      rw [hpre] at h
      cases hout : ext.activateOutcome with
      | none =>
          simp only [hout] at h
          cases hpost : (hookExecute ({ st1 with
              activeExtensions := st1.activeExtensions ++ [extensionId],
              log := st1.log ++ [extensionId] } : MState).hooks
              "framework:afterInit").2 with
          | error m => rw [hpost] at h; simp at h
          | ok u =>
              cases u
              rw [hpost] at h
              simp only [Prod.mk.injEq, Except.ok.injEq] at h
              exact h.2.symm
      | some o =>
          cases o with
          | error m => simp only [hout] at h; simp at h
          | ok u =>
              cases u
              simp only [hout] at h
              cases hpost : (hookExecute ({ st1 with
                  activeExtensions := st1.activeExtensions ++ [extensionId],
                  log := st1.log ++ [extensionId] } : MState).hooks
                  "framework:afterInit").2 with
              | error m => rw [hpost] at h; simp at h
              | ok u =>
                  cases u
                  rw [hpost] at h
                  simp only [Prod.mk.injEq, Except.ok.injEq] at h
                  exact h.2.symm

theorem activate_ok_active (fuel : Nat) (st : MState) (extensionId : String)
    (st' : MState) (h : activateFuel fuel st extensionId = (.ok (), st')) :
    isActive st' extensionId = true := by
  cases fuel with
  | zero => simp [activateFuel] at h
  | succ n =>
      simp only [activateFuel] at h
      cases hm : mapGet st.extensions extensionId with
      | none => rw [hm] at h; simp at h
      | some ext =>
          simp only [hm] at h
          by_cases hi : isActive st extensionId = true
          · rw [if_pos hi] at h
            simp only [Prod.mk.injEq] at h
            rw [← h.2]
            exact hi
          · rw [if_neg hi] at h
            cases hd : activateDepsGo (activateFuel n) st (ext.extDeps.map Prod.fst) with
            | mk r1 st1 =>
                rw [hd] at h
                cases r1 with
                | error e => simp at h
                | ok u =>
                    cases u
                    have := activateTail_ok ext extensionId st1 st' h
                    subst this
                    simp [isActive]

theorem depsGo_ok_all_active (fuel : Nat) :
    ∀ (ds : List String) (st st' : MState),
      activateDepsGo (activateFuel fuel) st ds = (.ok (), st') →
      ∀ d ∈ ds, isActive st' d = true := by
  intro ds
  induction ds with
  | nil => intro st st' _ d hd; simp at hd
  | cons d rest ih =>
      intro st st' h x hx
      simp only [activateDepsGo] at h
      by_cases hi : isActive st d = true
      · rw [if_pos hi] at h
        rcases List.mem_cons.mp hx with rfl | hx'
        · have hp : ActPreserves st st' := by
            have hq := (activatePreserves fuel).2 st rest
            rw [h] at hq
            exact hq
          have hmem : x ∈ st.activeExtensions := by simpa [isActive] using hi
          have := hp.2.2.2 x hmem
          simpa [isActive] using this
        · exact ih st st' h x hx'
      · rw [if_neg hi] at h
        cases ha : activateFuel fuel st d with
        | mk r st1 =>
            rw [ha] at h
            cases r with
            | error e => simp at h
            | ok u =>
                cases u
                have h' : activateDepsGo (activateFuel fuel) st1 rest
                    = (.ok (), st') := h
                rcases List.mem_cons.mp hx with rfl | hx'
                · have hact1 : isActive st1 x = true :=
                    activate_ok_active fuel st x st1 ha
                  have hp : ActPreserves st1 st' := by
                    have hq := (activatePreserves fuel).2 st1 rest
                    rw [h'] at hq
                    exact hq
                  have hmem : x ∈ st1.activeExtensions := by simpa [isActive] using hact1
                  have := hp.2.2.2 x hmem
                  simpa [isActive] using this
                · exact ih st1 st' h' x hx'

theorem register_stores (st : MState) (ext : Extension) (st' : MState)
    (h : register st ext = .ok st') :
    mapGet st'.extensions (getExtensionId ext) = some ext := by
  unfold register at h
  cases hv : validateExtension ext with
  | error e => rw [hv] at h; simp [Bind.bind, Except.bind] at h
  | ok u =>
      cases u
      rw [hv] at h
      cases hd : checkDependencies st ext with
      | error e => rw [hd] at h; simp [Bind.bind, Except.bind] at h
      | ok u =>
          cases u
          rw [hd] at h
          simp only [Bind.bind, Except.bind, pure, Except.pure] at h
          cases hh : ext.hooks with
          | none =>
              rw [hh] at h
              cases h
              exact mapGet_mapSet_self _ _ _
          | some hs =>
              rw [hh] at h
              cases h
              exact mapGet_mapSet_self _ _ _

/-! ## Claims -/

/-- C2 (counterexample).  `execute` with three handlers of which the
first and third throw: all three handlers are invoked, but the settled
error is the wrapped error of the first failing handler alone — it does not
reference the third handler's failure at all, so no aggregated error
referencing all failures is raised. -/
theorem C2_counterexample :
    hookExecute threeHandlerHooks "agent:beforeToolCall" =
      (["ext1", "ext2", "ext3"],
       Except.error "Hook agent:beforeToolCall failed in extension ext1: boom1")
    ∧ strHasSub "Hook agent:beforeToolCall failed in extension ext1: boom1" "ext3"
        = false
    ∧ firstFailure (threeHandlerHooks.head!.2) = some ("ext1", "boom1") := by
  refine ⟨rfl, by decide, rfl⟩

/-- C2 (amended).  `execute(hookName, context)` invokes all N registered
handlers (a promise is created, and the handler called, for every one before
any settlement is awaited), but the raised error is not an aggregate: when
at least one handler throws, `execute` rejects with exactly the wrapped
error of the first failing handler in registration order; the other
failures are logged per-handler but never surfaced to the caller. -/
theorem C2_execute_raises_first_failure_only (hooks : Hooks) (hookName : String)
    (handlers : List (String × CallOutcome))
    (h : mapGet hooks hookName = some handlers) :
    (hookExecute hooks hookName).1 = handlers.map Prod.fst ∧
    (hookExecute hooks hookName).2 =
      (match firstFailure handlers with
       | none => Except.ok ()
       | some (i, m) =>
           Except.error
             ("Hook " ++ hookName ++ " failed in extension " ++ i ++ ": " ++ m)) := by
  unfold hookExecute
  rw [h]
  exact ⟨rfl, promiseAll_executeHandler hookName handlers⟩

/-- C2 (witness). -/
theorem C2_execute_raises_first_failure_only_witness :
    (hookExecute threeHandlerHooks "agent:beforeToolCall").1 =
      ["ext1", "ext2", "ext3"] ∧
    (hookExecute threeHandlerHooks "agent:beforeToolCall").2 =
      Except.error "Hook agent:beforeToolCall failed in extension ext1: boom1" := by
  have h := C2_execute_raises_first_failure_only threeHandlerHooks
    "agent:beforeToolCall"
    [("ext1", Except.error "boom1"), ("ext2", Except.ok ()),
     ("ext3", Except.error "boom3")] rfl
  exact ⟨h.1, h.2⟩

/-- C3 (counterexample).  Registering a second extension resolving to
the already-taken id `dup` does not fail: it succeeds and silently replaces
the originally stored extension. -/
theorem C3_counterexample :
    (do
      let s1 ← register {} extDup1
      register s1 extDup2 : Except String MState) =
      .ok { extensions := [("dup", extDup2)], contexts := ["dup"] }
    ∧ extDup2 ≠ extDup1 := by
  exact ⟨by decide, by decide⟩

/-- C3 (amended).  A second `register` of an extension resolving to an
already-taken id is not rejected: whenever the newcomer passes validation
and its dependency check, registration succeeds and the newcomer replaces
the originally stored extension under that id. -/
theorem C3_duplicate_register_overwrites (st : MState) (e1 e2 : Extension)
    (st1 : MState)
    (h1 : register st e1 = .ok st1)
    (hid : getExtensionId e2 = getExtensionId e1)
    (hv : validateExtension e2 = .ok ())
    (hd : checkDependencies st1 e2 = .ok ()) :
    mapGet st1.extensions (getExtensionId e1) = some e1 ∧
    ∃ st2, register st1 e2 = .ok st2 ∧
      mapGet st2.extensions (getExtensionId e1) = some e2 := by
  refine ⟨register_stores st e1 st1 h1, ?_⟩
  cases hh : e2.hooks with
  | none =>
      have hreg : register st1 e2 = .ok { st1 with
          extensions := mapSet st1.extensions (getExtensionId e2) e2,
          contexts := if st1.contexts.contains (getExtensionId e2) then st1.contexts
                      else st1.contexts ++ [getExtensionId e2] } := by
        unfold register
        rw [hv, hd]
        simp only [Bind.bind, Except.bind, hh, pure, Except.pure]
      exact ⟨_, hreg, by rw [← hid]; exact mapGet_mapSet_self _ _ _⟩
  | some hs =>
      have hreg : register st1 e2 = .ok { st1 with
          extensions := mapSet st1.extensions (getExtensionId e2) e2,
          contexts := if st1.contexts.contains (getExtensionId e2) then st1.contexts
                      else st1.contexts ++ [getExtensionId e2],
          hooks := registerExtensionHooks st1.hooks (getExtensionId e2) hs } := by
        unfold register
        rw [hv, hd]
        simp only [Bind.bind, Except.bind, hh, pure, Except.pure]
      exact ⟨_, hreg, by rw [← hid]; exact mapGet_mapSet_self _ _ _⟩

/-- C3 (witness). -/
theorem C3_duplicate_register_overwrites_witness :
    mapGet ({ extensions := [("dup", extDup1)],
              contexts := ["dup"] } : MState).extensions
        (getExtensionId extDup1) = some extDup1
    ∧ ∃ st2,
        register { extensions := [("dup", extDup1)], contexts := ["dup"] } extDup2
          = .ok st2
        ∧ mapGet st2.extensions (getExtensionId extDup1) = some extDup2 :=
  C3_duplicate_register_overwrites {} extDup1 extDup2
    { extensions := [("dup", extDup1)], contexts := ["dup"] }
    (by decide) (by decide) (by decide) (by decide)

/-- C5 (confirmed).  After a call persisted a global decision for a
tool, every later `shouldApprove` for that tool — with any sessionId or
none, any parameters, any strategy, and regardless of whatever session
rows the store holds — resolves true, leaves the store unchanged and never
invokes the strategy: the global row is matched by the `sessionId IS NULL`
query that runs before any session-scoped lookup. -/
theorem C5_global_decision_bypasses_strategy (store0 store1 : ApprovalStore)
    (strategy : Strategy) (toolName params rowId : String)
    (sessionId context : Option String)
    (hr : store0.readFails = false)
    (hadd : addAutoApprovedTool store0 toolName none = .ok (rowId, store1)) :
    shouldApprove store1 strategy toolName params sessionId context
      = .ok (true, store1, false) := by
  unfold addAutoApprovedTool at hadd
  cases hw : store0.writeFails with
  | true => rw [hw] at hadd; simp at hadd
  | false =>
      rw [hw] at hadd
      simp only [Bool.false_eq_true, if_false, Except.ok.injEq, Prod.mk.injEq] at hadd
      obtain ⟨_, hst⟩ := hadd
      subst hst
      unfold shouldApprove isToolAutoApproved
      simp [hr, List.any_append]

/-- C5 (witness). -/
theorem C5_global_decision_bypasses_strategy_witness :
    shouldApprove { rows := [("global_tool_0", "t", none)], nextId := 1 }
      denyAllStrategy "t" "p" (some "s1") none
      = .ok (true, { rows := [("global_tool_0", "t", none)], nextId := 1 }, false) :=
  C5_global_decision_bypasses_strategy {}
    { rows := [("global_tool_0", "t", none)], nextId := 1 }
    denyAllStrategy "t" "p" "global_tool_0" (some "s1") none rfl rfl

/-- C6 (counterexample).  With approval granted and no caller options,
the underlying `execute` does not receive the caller's (absent) call
context unchanged: the wrapper substitutes the default
`toolCallId: 'approval-wrapped'` context object. -/
theorem C6_counterexample :
    (wrappedExecute true "t" toolT "p" none).optionsReceived
        = some CallOptions.approvalDefault
    ∧ Option.map CallOptions.caller (none : Option String)
        ≠ some CallOptions.approvalDefault := by
  exact ⟨rfl, by decide⟩

/-- C6 (amended).  On denial the underlying `execute` never runs and
the call fails with the denial error carrying the tool name.  On approval
the underlying `execute` runs with the caller's parameters unchanged and,
when the caller supplied an options value, that exact value; when the
caller supplied none, the wrapper substitutes its default call context
instead of passing the absence through. -/
theorem C6_wrapped_execute_behavior (approved : Bool) (toolName : String)
    (tool : Tool) (parameters : String) (options : Option String) :
    (approved = false →
      wrappedExecute approved toolName tool parameters options =
        ⟨false, none, none, .error ("Tool execution denied: " ++ toolName)⟩)
    ∧ (∀ f, approved = true → tool.execute = some f → options = none →
        wrappedExecute approved toolName tool parameters options =
          ⟨true, some parameters, some CallOptions.approvalDefault,
           .ok (f parameters CallOptions.approvalDefault)⟩)
    ∧ (∀ f o, approved = true → tool.execute = some f → options = some o →
        wrappedExecute approved toolName tool parameters options =
          ⟨true, some parameters, some (CallOptions.caller o),
           .ok (f parameters (CallOptions.caller o))⟩) := by
  refine ⟨?_, ?_, ?_⟩
  · intro h; subst h; rfl
  · intro f h hf ho; subst h; subst ho
    simp [wrappedExecute, hf]
  · intro f o h hf ho; subst h; subst ho
    simp [wrappedExecute, hf]

/-- C6 (witness). -/
theorem C6_wrapped_execute_behavior_witness :
    wrappedExecute false "t" toolT "p" (some "o") =
      ⟨false, none, none, .error "Tool execution denied: t"⟩
    ∧ wrappedExecute true "t" toolT "p" (some "o") =
      ⟨true, some "p", some (CallOptions.caller "o"), .ok "p:ran"⟩ :=
  ⟨(C6_wrapped_execute_behavior false "t" toolT "p" (some "o")).1 rfl,
   (C6_wrapped_execute_behavior true "t" toolT "p" (some "o")).2.2
     (fun p _ => p ++ ":ran") "o" rfl rfl rfl⟩

/-- C7 (confirmed).  When the strategy's response carries no scope, the
scope `once`, or the scope `session` while no sessionId was supplied,
`shouldApprove` resolves and the decision store afterwards is exactly the
store before: nothing is persisted, and in particular a session scope
without a sessionId is never upgraded to a global decision. -/
theorem C7_once_absent_sessionless_never_persists (store : ApprovalStore)
    (strategy : Strategy) (toolName params : String)
    (sessionId context : Option String)
    (hr : store.readFails = false)
    (hscope : (strategy ⟨toolName, params, context, sessionId⟩).scope = none
      ∨ (strategy ⟨toolName, params, context, sessionId⟩).scope = some Scope.once
      ∨ ((strategy ⟨toolName, params, context, sessionId⟩).scope = some Scope.session
          ∧ sessionId = none)) :
    (shouldApprove store strategy toolName params sessionId context).map
        (fun r => r.2.1) = .ok store := by
  unfold shouldApprove
  rw [isToolAutoApproved_ok store toolName sessionId hr]
  rcases Bool.eq_false_or_eq_true
      (globalHit store toolName || sessionHit store toolName sessionId) with hB | hB
  · rw [hB]
    rfl
  · rw [hB]
    rcases hscope with h | h | ⟨h, hsid⟩
    · simp [h, Except.map]
    · simp [h, Except.map]
    · subst hsid
      cases happ : (strategy ⟨toolName, params, context, none⟩).approved <;>
        simp [h, happ, saveApprovalScope, Except.map]

/-- C7 (witness). -/
theorem C7_once_absent_sessionless_never_persists_witness :
    (shouldApprove {} sessionStrategy "t" "p" none none).map (fun r => r.2.1)
      = .ok {} :=
  C7_once_absent_sessionless_never_persists {} sessionStrategy "t" "p" none none
    rfl (Or.inr (Or.inr ⟨rfl, rfl⟩))

/-- C8 (counterexample).  A decision-store read failure inside
`shouldApprove` is not caught: the call rejects with the storage error
instead of resolving with a decision. -/
theorem C8_counterexample :
    shouldApprove { readFails := true } denyAllStrategy "t" "p" none none
      = .error "storage read failed" := rfl

/-- C8 (amended).  A decision-store write failure is never fatal and
never changes the call's outcome: `shouldApprove` resolves with the prior
persisted decision or, failing that, exactly the strategy's decision, and
the store is left unchanged.  A failure of the read that opens
`shouldApprove`, however, propagates to the caller. -/
theorem C8_write_failures_nonfatal_read_failures_fatal (store : ApprovalStore)
    (strategy : Strategy) (toolName params : String)
    (sessionId context : Option String) :
    (store.readFails = true →
      shouldApprove store strategy toolName params sessionId context
        = .error "storage read failed")
    ∧ (store.readFails = false → store.writeFails = true →
      shouldApprove store strategy toolName params sessionId context
        = (match isToolAutoApproved store toolName sessionId with
           | .ok true => .ok (true, store, false)
           | _ => .ok ((strategy ⟨toolName, params, context, sessionId⟩).approved,
                       store, true))) := by
  constructor
  · intro h
    unfold shouldApprove isToolAutoApproved
    rw [h]
    rfl
  · intro hr hw
    unfold shouldApprove
    rw [isToolAutoApproved_ok store toolName sessionId hr]
    rcases Bool.eq_false_or_eq_true
        (globalHit store toolName || sessionHit store toolName sessionId) with hB | hB
    · rw [hB]
    · rw [hB]
      cases hsc : (strategy ⟨toolName, params, context, sessionId⟩).scope with
      | none => simp [hsc]
      | some sc =>
          cases happ : (strategy ⟨toolName, params, context, sessionId⟩).approved with
          | false => simp [hsc, happ]
          | true =>
              cases sc with
              | once => simp [hsc, happ]
              | session =>
                  cases sessionId <;>
                    simp [hsc, happ, saveApprovalScope, addAutoApprovedTool, hw]
              | global =>
                  simp [hsc, happ, saveApprovalScope, addAutoApprovedTool, hw]

/-- C8 (witness). -/
theorem C8_write_failures_nonfatal_read_failures_fatal_witness :
    shouldApprove { writeFails := true } globalStrategy "t" "p" none none
      = .ok (true, { writeFails := true }, true) := by
  have h := (C8_write_failures_nonfatal_read_failures_fatal
    { writeFails := true } globalStrategy "t" "p" none none).2 rfl rfl
  simpa using h

/-- C10 (confirmed).  The id under which an extension is stored is its
name lowercased with every character outside `[a-z0-9]` replaced by `'-'`;
`register` stores the extension under exactly that id, so a lookup with the
original unnormalized name misses, and names differing only in case or
punctuation collide to the same id. -/
theorem C10_extension_ids_normalized :
    (∀ ext : Extension, (getExtensionId ext).data =
        ext.name.data.map (fun c =>
          let l := Char.toLower c
          if ('a' ≤ l ∧ l ≤ 'z') ∨ ('0' ≤ l ∧ l ≤ '9') then l else '-'))
    ∧ (∀ st ext st', register st ext = .ok st' →
        mapGet st'.extensions (getExtensionId ext) = some ext)
    ∧ register {} extMyExt =
        .ok { extensions := [("my-ext", extMyExt)], contexts := ["my-ext"] }
    ∧ mapGet [("my-ext", extMyExt)] "My Ext" = none
    ∧ getExtensionId extMyExt = getExtensionId extMyDotExt
    ∧ extMyExt.name ≠ extMyDotExt.name := by
  refine ⟨?_, register_stores, by decide, by decide, by decide, by decide⟩
  intro ext
  simp [getExtensionId, List.map_map]

/-- C1 (code refutation).  A mutual dependency cycle between `a` and
`b` is reachable through the public API — register `a`, register `b`
depending on `a`, unregister `a`, re-register `a` depending on `b`; every
step's own dependency check passes.  From that state, `activate` of either
extension never terminates: for every recursion budget it exhausts the
budget, raising no error of any kind (there is no `DependencyCycleError`
anywhere in the code), running no activate callback, and leaving the state
— in particular the active set — exactly as it was. -/
theorem C1_cycle_activation_never_terminates :
    buildCycle = .ok cycleSt
    ∧ ∀ fuel,
        activateFuel fuel cycleSt "a" = (.error .outOfFuel, cycleSt)
        ∧ activateFuel fuel cycleSt "b" = (.error .outOfFuel, cycleSt) := by
  refine ⟨by decide, ?_⟩
  have key : ∀ fuel,
      activateFuel fuel cycleSt "a" = (.error .outOfFuel, cycleSt)
      ∧ activateFuel fuel cycleSt "b" = (.error .outOfFuel, cycleSt)
      ∧ activateDepsGo (activateFuel fuel) cycleSt ["b"] = (.error .outOfFuel, cycleSt)
      ∧ activateDepsGo (activateFuel fuel) cycleSt ["a"] = (.error .outOfFuel, cycleSt) := by
    intro fuel
    induction fuel with
    | zero => exact ⟨rfl, rfl, rfl, rfl⟩
    | succ n ih =>
        obtain ⟨iha, ihb, ihdb, ihda⟩ := ih
        have ha : activateFuel (n + 1) cycleSt "a" = (.error .outOfFuel, cycleSt) := by
          have e1 : activateFuel (n + 1) cycleSt "a" =
              (match activateDepsGo (activateFuel n) cycleSt ["b"] with
               | (.error e, st1) => (.error e, st1)
               | (.ok (), st1) => activateTail extA1 "a" st1) := rfl
          rw [e1, ihdb]
        have hb : activateFuel (n + 1) cycleSt "b" = (.error .outOfFuel, cycleSt) := by
          have e1 : activateFuel (n + 1) cycleSt "b" =
              (match activateDepsGo (activateFuel n) cycleSt ["a"] with
               | (.error e, st1) => (.error e, st1)
               | (.ok (), st1) => activateTail extB1 "b" st1) := rfl
          rw [e1, ihda]
        have hdb : activateDepsGo (activateFuel (n + 1)) cycleSt ["b"]
            = (.error .outOfFuel, cycleSt) := by
          have e2 : activateDepsGo (activateFuel (n + 1)) cycleSt ["b"] =
              (match activateFuel (n + 1) cycleSt "b" with
               | (.error e, st') => (.error e, st')
               | (.ok (), st') => activateDepsGo (activateFuel (n + 1)) st' []) := rfl
          rw [e2, hb]
        have hda : activateDepsGo (activateFuel (n + 1)) cycleSt ["a"]
            = (.error .outOfFuel, cycleSt) := by
          have e2 : activateDepsGo (activateFuel (n + 1)) cycleSt ["a"] =
              (match activateFuel (n + 1) cycleSt "a" with
               | (.error e, st') => (.error e, st')
               | (.ok (), st') => activateDepsGo (activateFuel (n + 1)) st' []) := rfl
          rw [e2, ha]
        exact ⟨ha, hb, hdb, hda⟩
  exact fun fuel => ⟨(key fuel).1, (key fuel).2.1⟩

/-- C4 (counterexample).  Reachable state: extension `h` registers a
throwing `framework:afterInit` handler; activating the plain extension `p`
re-raises the post-activation hook error, yet `p` is active afterwards —
the extension does not remain inactive. -/
theorem C4_counterexample :
    (do
      let s1 ← register {} hookFailExt
      register s1 plainExt : Except String MState) = .ok postHookSt
    ∧ activateFuel 2 postHookSt "p"
        = (.error (.err "Hook framework:afterInit failed in extension h: postboom"),
           { postHookSt with activeExtensions := ["p"], log := ["p"] })
    ∧ isActive { postHookSt with activeExtensions := ["p"], log := ["p"] } "p"
        = true := by
  exact ⟨by decide, by decide, by decide⟩

/-- C4 (amended).  For a registered, inactive extension whose declared
dependencies are all active: a throw in the pre-activation hook or in the
extension's own activate callback re-raises and leaves the extension
inactive with the state unchanged; but a throw in the post-activation hook
re-raises after the extension was already marked active — `isActive` is
true afterwards. -/
theorem C4_activation_failure_effects (fuel : Nat) (st : MState)
    (extensionId : String) (ext : Extension)
    (hext : mapGet st.extensions extensionId = some ext)
    (hact : isActive st extensionId = false)
    (hdeps : ∀ d ∈ ext.extDeps.map Prod.fst, isActive st d = true) :
    (∀ m, (hookExecute st.hooks "framework:beforeInit").2 = .error m →
      activateFuel (fuel + 1) st extensionId = (.error (.err m), st)
      ∧ isActive st extensionId = false)
    ∧ (∀ m, (hookExecute st.hooks "framework:beforeInit").2 = .ok () →
        ext.activateOutcome = some (.error m) →
        activateFuel (fuel + 1) st extensionId = (.error (.err m), st)
        ∧ isActive st extensionId = false)
    ∧ (∀ m, (hookExecute st.hooks "framework:beforeInit").2 = .ok () →
        (ext.activateOutcome = none ∨ ext.activateOutcome = some (.ok ())) →
        (hookExecute st.hooks "framework:afterInit").2 = .error m →
        activateFuel (fuel + 1) st extensionId =
          (.error (.err m),
           { st with activeExtensions := st.activeExtensions ++ [extensionId],
                     log := st.log ++ [extensionId] })
        ∧ isActive { st with
              activeExtensions := st.activeExtensions ++ [extensionId],
              log := st.log ++ [extensionId] } extensionId = true) := by
  have hred : activateFuel (fuel + 1) st extensionId
      = activateTail ext extensionId st := by
    simp only [activateFuel]
    simp only [hext]
    simp only [hact, Bool.false_eq_true, if_false]
    rw [activateDepsGo_all_active (activateFuel fuel) st _ hdeps]
  refine ⟨?_, ?_, ?_⟩
  · intro m hpre
    refine ⟨?_, hact⟩
    rw [hred]
    unfold activateTail
    simp only [hpre]
  · intro m hpre hout
    refine ⟨?_, hact⟩
    rw [hred]
    unfold activateTail
    simp only [hpre, hout]
  · intro m hpre hout hpost
    constructor
    · rw [hred]
      unfold activateTail
      rcases hout with h | h <;> simp only [hpre, h, hpost]
    · simp [isActive]

/-- C4 (witness). -/
theorem C4_activation_failure_effects_witness :
    activateFuel 2 postHookSt "p" =
      (.error (.err "Hook framework:afterInit failed in extension h: postboom"),
       { postHookSt with activeExtensions := ["p"], log := ["p"] })
    ∧ isActive { postHookSt with activeExtensions := ["p"], log := ["p"] } "p"
        = true :=
  (C4_activation_failure_effects 1 postHookSt "p" plainExt rfl rfl
      (by simp [plainExt])).2.2
    "Hook framework:afterInit failed in extension h: postboom"
    rfl (Or.inl rfl) rfl

/-- C9 (confirmed).  If extension `B` declares a dependency on `A` and
neither is active, a successful `activate(B)` leaves every declared
dependency of `B` active and `B` active, and the activation log shows `A`
recorded strictly before `B`: the run appends `L ++ [B]` to the log with
`A ∈ L`, and an extension is marked active in the same step that appends it
to the log. -/
theorem C9_dependencies_activate_first (fuel : Nat) (st st' : MState)
    (extB : Extension) (aId bId : String)
    (hB : mapGet st.extensions bId = some extB)
    (hA : aId ∈ extB.extDeps.map Prod.fst)
    (hAact : isActive st aId = false)
    (hBact : isActive st bId = false)
    (hrun : activateFuel fuel st bId = (.ok (), st')) :
    (∀ d ∈ extB.extDeps.map Prod.fst, isActive st' d = true)
    ∧ isActive st' bId = true
    ∧ ∃ L, st'.log = st.log ++ L ++ [bId] ∧ aId ∈ L := by
  cases fuel with
  | zero => simp [activateFuel] at hrun
  | succ n =>
      simp only [activateFuel] at hrun
      simp only [hB] at hrun
      rw [if_neg (by simp [hBact])] at hrun
      cases hd : activateDepsGo (activateFuel n) st (extB.extDeps.map Prod.fst) with
      | mk r1 st1 =>
          rw [hd] at hrun
          cases r1 with
          | error e => simp at hrun
          | ok u =>
              cases u
              have htail : activateTail extB bId st1 = (.ok (), st') := hrun
              have hst' := activateTail_ok extB bId st1 st' htail
              have hdepsActive : ∀ d ∈ extB.extDeps.map Prod.fst,
                  isActive st1 d = true :=
                depsGo_ok_all_active n _ st st1 hd
              have hpres : ActPreserves st st1 := by
                have hq := (activatePreserves n).2 st (extB.extDeps.map Prod.fst)
                rw [hd] at hq
                exact hq
              obtain ⟨_, _, ⟨L, hlog, hnew⟩, _⟩ := hpres
              subst hst'
              refine ⟨?_, ?_, ⟨L, ?_, ?_⟩⟩
              · intro d hdm
                have hmem : d ∈ st1.activeExtensions := by
                  simpa [isActive] using hdepsActive d hdm
                simp [isActive]
                exact Or.inl hmem
              · simp [isActive]
              · simp [hlog]
              · have h1 : aId ∈ st1.activeExtensions := by
                  simpa [isActive] using hdepsActive aId hA
                rcases hnew aId h1 with hin | hin
                · exfalso
                  have : isActive st aId = true := by simpa [isActive] using hin
                  rw [hAact] at this
                  cases this
                · exact hin

/-- C9 (witness). -/
theorem C9_dependencies_activate_first_witness :
    (∀ d ∈ extB1.extDeps.map Prod.fst,
        isActive { stAB with activeExtensions := ["a", "b"], log := ["a", "b"] } d
          = true)
    ∧ isActive { stAB with activeExtensions := ["a", "b"], log := ["a", "b"] } "b"
        = true
    ∧ ∃ L,
        ({ stAB with activeExtensions := ["a", "b"], log := ["a", "b"] } : MState).log
          = stAB.log ++ L ++ ["b"]
        ∧ "a" ∈ L :=
  C9_dependencies_activate_first 2 stAB
    { stAB with activeExtensions := ["a", "b"], log := ["a", "b"] }
    extB1 "a" "b" (by decide) (by decide) (by decide) (by decide) (by decide)

/-- C10 (witness). -/
theorem C10_extension_ids_normalized_witness :
    mapGet ({ extensions := [("my-ext", extMyExt)],
              contexts := ["my-ext"] } : MState).extensions
        (getExtensionId extMyExt) = some extMyExt :=
  C10_extension_ids_normalized.2.1 {} extMyExt
    { extensions := [("my-ext", extMyExt)], contexts := ["my-ext"] } (by decide)

end ChatTools
